import Mathlib

/-!
Verification of the rlox tree-walking interpreter (scanner, recursive-descent
parser and AST evaluator with a chain of mutable environments).

Shallow embedding conventions:
* Rust `f64` numbers are modelled as `Rat`; every arithmetic operation used by
  the claims (integers, string concatenation, comparisons) is exact in both
  representations.
* Rust `HashMap<String, Literal>` is modelled as an association list with
  insert-replaces-existing-key semantics (`scopeInsert`); `contains_key`
  corresponds to a successful `scopeGet`.
* The `Environment` chain (`enclosing: Option<Box<Environment>>`) is modelled
  as a list of scopes, innermost first; `None` for `enclosing` corresponds to
  the empty tail.
* A Rust `panic!` (e.g. `Option::unwrap` on `None`, `Result::unwrap` on `Err`)
  is modelled by the explicit `panic` constructors of the result types: the
  process halts, keeping the side effects (output, reported errors) performed
  so far.
* Side-effecting reporting (`Lox::error`, `Lox::runtime_error`,
  `Lox::parse_error`, `println!`) is modelled by accumulating lists carried in
  the scanner / parser / interpreter states.
-/

namespace Rlox

/-- Token kinds, from `src/token.rs` (`enum TokenType`). -/
inductive TokenType where
  | leftParen | rightParen | leftBrace | rightBrace
  | comma | dot | minus | plus | semiColon | slash | star
  | bang | bangEqual
  | equal | equalEqual
  | greater | greaterEqual
  | less | lessEqual
  | identifier | string_ | number
  | and_ | class_ | else_ | false_ | fun_ | for_ | if_ | nil_ | or_
  | print | return_ | super_ | this_ | true_ | var | while_
  | eof
deriving DecidableEq, Repr

/-- Runtime / literal values, from `src/token.rs` (`enum Literal`).
`Number` carries `f64` in the source; modelled as `Rat`. -/
inductive Literal where
  | str (s : String)
  | num (q : Rat)
  | bool (b : Bool)
  | nil
deriving DecidableEq, Repr

/-- Tokens, from `src/token.rs` (`struct Token`). -/
structure Token where
  tokenType : TokenType
  lexeme : String
  literal : Option Literal
  line : Nat
deriving DecidableEq, Repr

/-- `struct RuntimeError(pub Token, pub String)` from `src/interpreter.rs`. -/
structure RuntimeError where
  token : Token
  message : String
deriving DecidableEq, Repr

/-- `struct ParseError(pub Token, pub String)` from `src/parser.rs`. -/
structure ParseError where
  token : Token
  message : String
deriving DecidableEq, Repr

/-! ## Environment (`interpreter/src/environment.rs`)

`Environment { enclosing: Option<Box<Environment>>, values: HashMap<String,
Literal> }` is modelled as a list of scopes, innermost first; each scope is an
association list standing for the `HashMap`. -/

/-- One scope's `values: HashMap<String, Literal>`, as an association list. -/
abbrev Scope := List (String × Literal)

/-- The chain of environments, innermost scope first. -/
abbrev EnvC := List Scope

/-- `HashMap::get`: the value bound to `key`, if present. -/
def scopeGet : Scope → String → Option Literal
  | [], _ => none
  | (k, v) :: rest, key => if k = key then some v else scopeGet rest key

/-- `HashMap::contains_key`. -/
def containsKey (s : Scope) (key : String) : Bool :=
  (scopeGet s key).isSome

/-- `HashMap::insert`: replaces the value of an existing key, otherwise adds
the binding. -/
def scopeInsert : Scope → String → Literal → Scope
  | [], key, v => [(key, v)]
  | (k, w) :: rest, key, v =>
    if k = key then (key, v) :: rest else (k, w) :: scopeInsert rest key v

/-- `Environment::get`: search the current scope, then each enclosing scope
outward; error with an undefined-variable `RuntimeError` carrying the lookup
token when the chain is exhausted.  (The source's `contains_key` test followed
by `get(..).unwrap()` is the `some` branch of the single lookup here.) -/
def envGet : EnvC → Token → Except RuntimeError Literal
  | [], t => .error ⟨t, "Undefined variable " ++ t.lexeme⟩
  | scope :: rest, t =>
    match scopeGet scope t.lexeme with
    | some v => .ok v
    | none => envGet rest t

/-- `Environment::assign`: mutate the innermost scope that already contains
the name; error with the same undefined-variable `RuntimeError` when the chain
is exhausted. -/
def envAssign : EnvC → Token → Literal → Except RuntimeError EnvC
  | [], t, _ => .error ⟨t, "Undefined variable " ++ t.lexeme⟩
  | scope :: rest, t, v =>
    if containsKey scope t.lexeme then
      .ok (scopeInsert scope t.lexeme v :: rest)
    else
      match envAssign rest t v with
      | .ok rest' => .ok (scope :: rest')
      | .error e => .error e

/-- `Environment::define`: insert into the current (innermost) scope.  The
interpreter's chain is never empty; the `[]` case only totalises the model. -/
def envDefine : EnvC → String → Literal → EnvC
  | [], k, v => [[(k, v)]]
  | scope :: rest, k, v => scopeInsert scope k v :: rest

/-- Whether a name is bound in some scope of the chain. -/
def envContains (c : EnvC) (key : String) : Bool :=
  c.any (fun s => containsKey s key)

/-! ## AST (`interpreter/src/parser.rs`, `enum Expr` / `enum Stmt`) -/

/-- Expression nodes. -/
inductive Expr where
  | unary (t : Token) (e : Expr)
  | binary (l : Expr) (t : Token) (r : Expr)
  | grouping (e : Expr)
  | literal (l : Literal)
  | var (t : Token)
  | assignment (t : Token) (e : Expr)
  | logical (l : Expr) (t : Token) (r : Expr)
deriving DecidableEq, Repr

/-- Statement nodes. -/
inductive Stmt where
  | expr (e : Expr)
  | print (e : Expr)
  | var (name : Token) (init : Option Expr)
  | block (stmts : List Stmt)
  | if_ (cond : Expr) (thenB : Stmt) (elseB : Option Stmt)
deriving Repr

/-! ## Evaluator (`src/interpreter.rs`) -/

/-- `Interpreter::is_truthy`: `Nil` and `Bool(false)` are falsy, everything
else is truthy. -/
def isTruthy : Literal → Bool
  | .nil => false
  | .bool b => b
  | _ => true

/-- `Interpreter::is_equal`: `Nil` equals only `Nil`; otherwise the derived
structural equality of `Literal`. -/
def isEqualLit (l r : Literal) : Bool :=
  match l, r with
  | .nil, .nil => true
  | .nil, _ => false
  | l, r => decide (l = r)

/-- Result of evaluating an expression: value or runtime error, together with
the environment chain after the side effects performed so far; `panic` marks
a Rust panic (here: the `Logical` variant, for which the source's `match` in
`Interpreter::evaluate` has no arm). -/
inductive EvalRes where
  | ok (l : Literal) (env : EnvC)
  | err (r : RuntimeError) (env : EnvC)
  | panic (env : EnvC)
deriving Repr

/-- The operator dispatch of `Interpreter::evaluate_unary` after the operand
has been evaluated.  Note the `Bang` arm returns `Bool(is_truthy(r))` with no
negation, exactly as the source does. -/
def evalUnaryOp (t : Token) (r : Literal) (env : EnvC) : EvalRes :=
  match t.tokenType with
  | .bang => .ok (.bool (isTruthy r)) env
  | .minus =>
    match r with
    | .num q => .ok (.num (q * (-1))) env
    | _ => .err ⟨t, "Operand must be a number"⟩ env
  | _ => .ok .nil env

/-- The operator dispatch of `Interpreter::evaluate_binary` after both
operands have been evaluated. -/
def evalBinaryOp (t : Token) (l r : Literal) (env : EnvC) : EvalRes :=
  match t.tokenType with
  | .plus =>
    match l, r with
    | .num a, .num b => .ok (.num (a + b)) env
    | .str a, .str b => .ok (.str (a ++ b)) env
    | _, _ => .err ⟨t, "Operands must be numbers"⟩ env
  | .minus =>
    match l, r with
    | .num a, .num b => .ok (.num (a - b)) env
    | _, _ => .err ⟨t, "Operands must be numbers"⟩ env
  | .star =>
    match l, r with
    | .num a, .num b => .ok (.num (a * b)) env
    | _, _ => .err ⟨t, "Operands must be numbers"⟩ env
  | .slash =>
    match l, r with
    | .num a, .num b => .ok (.num (a / b)) env
    | _, _ => .err ⟨t, "Operands must be numbers"⟩ env
  | .greater =>
    match l, r with
    | .num a, .num b => .ok (.bool (decide (a > b))) env
    | _, _ => .err ⟨t, "Operands must be numbers"⟩ env
  | .greaterEqual =>
    match l, r with
    | .num a, .num b => .ok (.bool (decide (a ≥ b))) env
    | _, _ => .err ⟨t, "Operands must be numbers"⟩ env
  | .less =>
    match l, r with
    | .num a, .num b => .ok (.bool (decide (a < b))) env
    | _, _ => .err ⟨t, "Operands must be numbers"⟩ env
  | .lessEqual =>
    match l, r with
    | .num a, .num b => .ok (.bool (decide (a ≤ b))) env
    | _, _ => .err ⟨t, "Operands must be numbers"⟩ env
  | .equalEqual => .ok (.bool (isEqualLit l r)) env
  | .bangEqual => .ok (.bool (! isEqualLit l r)) env
  | _ => .ok .nil env

/-- `Interpreter::evaluate`.  The `?` early returns of the source are the
`err` propagation cases; environment mutations performed before an error are
kept, as the Rust `&mut self` does.  The source's `match` has no arm for
`Expr::Logical`, so evaluating a `logical` node is modelled as a panic. -/
def evalExpr (env : EnvC) : Expr → EvalRes
  | .unary t e =>
    match evalExpr env e with
    | .ok r env => evalUnaryOp t r env
    | .err r env => .err r env
    | .panic env => .panic env
  | .binary le t re =>
    match evalExpr env le with
    | .ok lv env =>
      match evalExpr env re with
      | .ok rv env => evalBinaryOp t lv rv env
      | .err r env => .err r env
      | .panic env => .panic env
    | .err r env => .err r env
    | .panic env => .panic env
  | .grouping g => evalExpr env g
  | .literal l => .ok l env
  | .var t =>
    match envGet env t with
    | .ok v => .ok v env
    | .error r => .err r env
  | .assignment t e =>
    match evalExpr env e with
    | .ok v env =>
      match envAssign env t v with
      | .ok env => .ok v env
      | .error r => .err r env
    | .err r env => .err r env
    | .panic env => .panic env
  | .logical _ _ _ => .panic env

/-- The interpreter's mutable state: the environment chain, the `println!`
output of `Print` statements, and the runtime errors reported through
`Lox::runtime_error`. -/
structure InterpState where
  env : EnvC
  output : List Literal
  rerrs : List RuntimeError
deriving Repr

/-- Result of `Interpreter::interpret_stmt` (`Option<Literal>` in the source),
with `panic` marking the `unwrap` panics of the `If` arm. -/
inductive StmtRes where
  | ok (r : Option Literal) (s : InterpState)
  | panic (s : InterpState)
deriving Repr

mutual

/-- `Interpreter::interpret_stmt`.  Faithful to the source:
* the `Block` arm runs the inner statements against the same environment (it
  pushes no child scope);
* the `If` arm calls `.unwrap()` on the condition's `Result` and on the
  optional else branch, so a runtime error in the condition or a falsy
  condition with no else branch panics;
* the `Var` arm reports an initializer error and still defines the name
  (with `Nil`). -/
def interpretStmt : Stmt → InterpState → StmtRes
  | .print e, st =>
    match evalExpr st.env e with
    | .ok l env => .ok none { st with env := env, output := st.output ++ [l] }
    | .err r env => .ok none { st with env := env, rerrs := st.rerrs ++ [r] }
    | .panic env => .panic { st with env := env }
  | .var name init, st =>
    match init with
    | some e =>
      match evalExpr st.env e with
      | .ok l env => .ok none { st with env := envDefine env name.lexeme l }
      | .err r env =>
        .ok none { st with env := envDefine env name.lexeme .nil,
                           rerrs := st.rerrs ++ [r] }
      | .panic env => .panic { st with env := env }
    | none => .ok none { st with env := envDefine st.env name.lexeme .nil }
  | .block stmts, st => interpretBlock stmts st
  | .if_ c tB eB, st =>
    match evalExpr st.env c with
    | .err _ env => .panic { st with env := env }
    | .panic env => .panic { st with env := env }
    | .ok l env =>
      let st := { st with env := env }
      if isTruthy l then
        match interpretStmt tB st with
        | .ok _ st => .ok none st
        | .panic st => .panic st
      else
        match eB with
        | some eb =>
          match interpretStmt eb st with
          | .ok _ st => .ok none st
          | .panic st => .panic st
        | none => .panic st
  | .expr e, st =>
    match evalExpr st.env e with
    | .ok l env => .ok (some l) { st with env := env }
    | .err r env => .ok none { st with env := env, rerrs := st.rerrs ++ [r] }
    | .panic env => .panic { st with env := env }

/-- The `for s in stmts` loop of the `Block` arm. -/
def interpretBlock : List Stmt → InterpState → StmtRes
  | [], st => .ok none st
  | s :: rest, st =>
    match interpretStmt s st with
    | .ok _ st' => interpretBlock rest st'
    | .panic st' => .panic st'

end

/-- Result of `Interpreter::interpret` over a whole statement list. -/
inductive InterpOutcome where
  | ok (s : InterpState)
  | panic (s : InterpState)
deriving Repr

/-- `Interpreter::interpret`: run each top-level statement in order; a panic
halts the process. -/
def interpretProgram : List Stmt → InterpState → InterpOutcome
  | [], st => .ok st
  | s :: rest, st =>
    match interpretStmt s st with
    | .ok _ st' => interpretProgram rest st'
    | .panic st' => .panic st'

/-- `Interpreter::new`: a single global scope, no enclosing parent, nothing
printed, no errors reported. -/
def initState : InterpState := ⟨[[]], [], []⟩

/-! ## Scanner (`interpreter/src/scanner.rs`)

The scanner is a cursor over the source characters.  Loops are modelled with
an explicit fuel argument; every call site passes `source.length`, which
bounds the number of iterations of each loop (each iteration advances the
cursor by one). -/

/-- The scanner's state: `struct Scanner` plus the lexical errors reported
through `Lox::error` as `(line, message)` pairs. -/
structure ScanState where
  source : List Char
  tokens : List Token
  errors : List (Nat × String)
  start : Nat
  current : Nat
  line : Nat
deriving Repr

/-- The source slice `chars().skip(a).take(b - a)` as a `String`. -/
def sliceStr (src : List Char) (a b : Nat) : String :=
  String.mk ((src.drop a).take (b - a))

/-- `Scanner::add_full_token`: push a token whose lexeme is the slice from
`start` to `current`. -/
def addFullToken (s : ScanState) (tt : TokenType) (lit : Option Literal) :
    ScanState :=
  { s with tokens :=
      s.tokens ++ [⟨tt, sliceStr s.source s.start s.current, lit, s.line⟩] }

/-- `Scanner::add_token`: the literal defaults to `Some(Literal::Nil)`. -/
def addToken (s : ScanState) (tt : TokenType) : ScanState :=
  addFullToken s tt (some .nil)

/-- `Scanner::match_`: one character of conditional lookahead. -/
def matchChar (s : ScanState) (expected : Char) : Bool × ScanState :=
  if s.current < s.source.length ∧ s.source.getD s.current ' ' = expected then
    (true, { s with current := s.current + 1 })
  else
    (false, s)

/-- A `while p(peek()) && !at_end()` cursor loop (comments, number and
identifier runs): returns the first position at which `p` fails or the input
ends. -/
def skipWhile (p : Char → Bool) (src : List Char) (current : Nat) :
    Nat → Nat
  | 0 => current
  | fuel + 1 =>
    if current < src.length ∧ p (src.getD current ' ') then
      skipWhile p src (current + 1) fuel
    else current

/-- The consuming loop of `Scanner::string`: advance until the closing quote
or end of input, incrementing the line counter at each newline.  Returns the
new cursor and line counter. -/
def stringLoop (src : List Char) (current line : Nat) : Nat → Nat × Nat
  | 0 => (current, line)
  | fuel + 1 =>
    if current < src.length ∧ src.getD current ' ' ≠ '"' then
      stringLoop src (current + 1)
        (if src.getD current ' ' = '\n' then line + 1 else line) fuel
    else (current, line)

/-- `Scanner::string`: consume up to the closing quote.  At end of input,
report "Unterminated string." at the current line and emit no token;
otherwise consume the closing quote and emit a `String` token whose literal
is the slice including both surrounding quote characters. -/
def stringFn (s : ScanState) : ScanState :=
  let (cur, ln) := stringLoop s.source s.current s.line s.source.length
  if s.source.length ≤ cur then
    { s with current := cur, line := ln,
             errors := s.errors ++ [(ln, "Unterminated string.")] }
  else
    let s := { s with current := cur + 1, line := ln }
    addFullToken s .string_
      (some (.str (sliceStr s.source s.start s.current)))

/-- Digits of a decimal run as a natural number. -/
def digitsToNat (cs : List Char) : Nat :=
  cs.foldl (fun n c => n * 10 + (c.toNat - 48)) 0

/-- The numeric value of a scanned number lexeme (`str::parse::<f64>` in the
source; exact on the decimal digit strings the scanner produces). -/
def parseDecimal (cs : List Char) : Rat :=
  let intPart := cs.takeWhile Char.isDigit
  let rest := cs.drop intPart.length
  match rest with
  | '.' :: frac =>
    (digitsToNat intPart : Rat) + (digitsToNat frac : Rat) / ((10 : Rat) ^ frac.length)
  | _ => (digitsToNat intPart : Rat)

/-- `Scanner::number`: a maximal digit run, an optional fraction whose dot is
only consumed when followed by a digit, then a `Number` token. -/
def numberFn (s : ScanState) : ScanState :=
  let cur1 := skipWhile Char.isDigit s.source s.current s.source.length
  let cur2 :=
    if cur1 < s.source.length ∧ s.source.getD cur1 ' ' = '.' ∧
       (s.source.getD (cur1 + 1) ' ').isDigit ∧ cur1 + 1 < s.source.length then
      skipWhile Char.isDigit s.source (cur1 + 1) s.source.length
    else cur1
  let s := { s with current := cur2 }
  addFullToken s .number
    (some (.num (parseDecimal ((s.source.drop s.start).take (s.current - s.start)))))

/-- The keyword table (`lazy_static KEYWORDS`). -/
def keywordLookup : String → Option TokenType
  | "and" => some .and_
  | "class" => some .class_
  | "else" => some .else_
  | "false" => some .false_
  | "for" => some .for_
  | "fun" => some .fun_
  | "if" => some .if_
  | "nil" => some .nil_
  | "or" => some .or_
  | "print" => some .print
  | "return" => some .return_
  | "super" => some .super_
  | "this" => some .this_
  | "true" => some .true_
  | "var" => some .var
  | "while" => some .while_
  | _ => none

/-- `Scanner::identifier`: a maximal alphanumeric run, then the keyword table
decides between a keyword token and `Identifier`. -/
def identifierFn (s : ScanState) : ScanState :=
  let cur := skipWhile Char.isAlphanum s.source s.current s.source.length
  let s := { s with current := cur }
  let text := sliceStr s.source s.start s.current
  match keywordLookup text with
  | some tt => addToken s tt
  | none => addToken s .identifier

/-- The classification `match` of `Scanner::scan_token`, over the consumed
character `c` and the state after the initial `advance`.  (Rust's
Unicode-aware `is_alphabetic` / `is_alphanumeric` are modelled by the ASCII
`Char.isAlpha` / `Char.isAlphanum`, which agree on every input the claims
touch.) -/
def scanTokenChar (c : Char) (s : ScanState) : ScanState :=
  match c with
  | '(' => addToken s .leftParen
  | ')' => addToken s .rightParen
  | '{' => addToken s .leftBrace
  | '}' => addToken s .rightBrace
  | ',' => addToken s .comma
  | '.' => addToken s .dot
  | '-' => addToken s .minus
  | '+' => addToken s .plus
  | ';' => addToken s .semiColon
  | '*' => addToken s .star
  | '!' =>
    let (m, s) := matchChar s '='
    addToken s (if m then .bangEqual else .bang)
  | '=' =>
    let (m, s) := matchChar s '='
    addToken s (if m then .equalEqual else .equal)
  | '<' =>
    let (m, s) := matchChar s '='
    addToken s (if m then .lessEqual else .less)
  | '>' =>
    let (m, s) := matchChar s '='
    addToken s (if m then .greaterEqual else .greater)
  | '/' =>
    let (m, s') := matchChar s '/'
    if m then
      { s' with current :=
          skipWhile (fun c => c != '\n') s'.source s'.current s'.source.length }
    else addToken s' .slash
  | ' ' => s
  | '\r' => s
  | '\t' => s
  | '\n' => { s with line := s.line + 1 }
  | '"' => stringFn s
  | c =>
    if c.isDigit then numberFn s
    else if c.isAlpha then identifierFn s
    else { s with errors := s.errors ++ [(s.line, "Unexpected character.")] }

/-- `Scanner::scan_token`: `advance` consumes one character, which the
`match` above classifies. -/
def scanToken (s : ScanState) : ScanState :=
  scanTokenChar (s.source.getD s.current ' ') { s with current := s.current + 1 }

/-- The `while !at_end()` loop of `Scanner::scan_tokens`: set `start` to the
cursor and scan one token, until the input is exhausted (or the fuel runs
out; `source.length` is always enough fuel, as every `scan_token` advances
the cursor). -/
def scanLoop : ScanState → Nat → ScanState
  | s, 0 => s
  | s, fuel + 1 =>
    if s.current < s.source.length then
      scanLoop (scanToken { s with start := s.current }) fuel
    else s

/-- `Scanner::scan_tokens`: scan the whole source and append the final `Eof`
token (whose literal is `None`).  Returns the tokens and the reported lexical
errors. -/
def scanTokens (src : List Char) : List Token × List (Nat × String) :=
  let s := scanLoop ⟨src, [], [], 0, 0, 1⟩ src.length
  (s.tokens ++ [⟨.eof, "", none, s.line⟩], s.errors)

/-! ## Parser (`interpreter/src/parser.rs`)

The mutually recursive grammar productions are modelled with an explicit
fuel argument; `parseTokens` passes a fuel that is always sufficient for the
concrete token lists the claims evaluate. -/

/-- The parser's state: the token list, the cursor, and the parse errors
reported through `Lox::parse_error`. -/
structure PState where
  tokens : List Token
  current : Nat
  errors : List ParseError
deriving Repr

/-- Out-of-range token accesses never occur on scanner output (which always
ends in `Eof`); this default only totalises the model. -/
def defaultTok : Token := ⟨.eof, "", none, 0⟩

/-- `Parser::peek`. -/
def peekT (s : PState) : Token := s.tokens.getD s.current defaultTok

/-- `Parser::previous`. -/
def prevT (s : PState) : Token := s.tokens.getD (s.current - 1) defaultTok

/-- `Parser::advance`: move past the current token unless at `Eof`; return
the token just consumed. -/
def advanceP (s : PState) : Token × PState :=
  let s' := if (peekT s).tokenType = TokenType.eof then s
            else { s with current := s.current + 1 }
  (prevT s', s')

/-- `Parser::check`. -/
def checkP (s : PState) (tt : TokenType) : Bool :=
  if (peekT s).tokenType = TokenType.eof then false
  else decide ((peekT s).tokenType = tt)

/-- `Parser::match_`: consume the current token when its kind is in the
list. -/
def matchP (s : PState) : List TokenType → Bool × PState
  | [] => (false, s)
  | tt :: rest =>
    if checkP s tt then (true, (advanceP s).2) else matchP s rest

/-- `Parser::consume`: require a token kind, else a `ParseError` carrying the
offending token and the caller's message. -/
def consumeP (s : PState) (tt : TokenType) (msg : String) :
    Except ParseError (Token × PState) :=
  if checkP s tt then .ok (advanceP s) else .error ⟨peekT s, msg⟩

/-- The error returned when the recursion fuel runs out.  Unreachable for the
fuel `parseTokens` supplies; it exists only to totalise the model. -/
def fuelError (s : PState) : ParseError := ⟨peekT s, "out of fuel"⟩

mutual

/-- `Parser::expression`. -/
def expression : Nat → PState → Except ParseError (Expr × PState)
  | 0, s => .error (fuelError s)
  | f + 1, s => assignmentFn f s

/-- `Parser::assignment`.  Faithful to the source: after parsing the
left-hand side and seeing `=`, it recurses for the right-hand side and then
matches on *that value* — producing an `Assignment` node only when the
right-hand side already is one (which no production ever builds), and the
error "Invalid assignment target." otherwise.  The parsed left-hand side is
discarded in both cases. -/
def assignmentFn : Nat → PState → Except ParseError (Expr × PState)
  | 0, s => .error (fuelError s)
  | f + 1, s =>
    match orFn f s with
    | .error e => .error e
    | .ok (expr, s) =>
      let (m, s) := matchP s [.equal]
      if m then
        let equals := prevT s
        match assignmentFn f s with
        | .error e => .error e
        | .ok (value, s) =>
          match value with
          | Expr.assignment t e => .ok (Expr.assignment t e, s)
          | _ => .error ⟨equals, "Invalid assignment target."⟩
      else .ok (expr, s)

/-- `Parser::or`.  Faithful to the source: the fold matches `And` tokens (not
`Or`), and the right operand is parsed with `equality`. -/
def orFn : Nat → PState → Except ParseError (Expr × PState)
  | 0, s => .error (fuelError s)
  | f + 1, s =>
    match andFn f s with
    | .error e => .error e
    | .ok (expr, s) => orLoop f expr s

def orLoop : Nat → Expr → PState → Except ParseError (Expr × PState)
  | 0, _, s => .error (fuelError s)
  | f + 1, expr, s =>
    let (m, s) := matchP s [.and_]
    if m then
      let op := prevT s
      match equality f s with
      | .error e => .error e
      | .ok (right, s) => orLoop f (Expr.logical expr op right) s
    else .ok (expr, s)

/-- `Parser::and`. -/
def andFn : Nat → PState → Except ParseError (Expr × PState)
  | 0, s => .error (fuelError s)
  | f + 1, s =>
    match equality f s with
    | .error e => .error e
    | .ok (expr, s) => andLoop f expr s

def andLoop : Nat → Expr → PState → Except ParseError (Expr × PState)
  | 0, _, s => .error (fuelError s)
  | f + 1, expr, s =>
    let (m, s) := matchP s [.and_]
    if m then
      let op := prevT s
      match equality f s with
      | .error e => .error e
      | .ok (right, s) => andLoop f (Expr.logical expr op right) s
    else .ok (expr, s)

/-- `Parser::equality`. -/
def equality : Nat → PState → Except ParseError (Expr × PState)
  | 0, s => .error (fuelError s)
  | f + 1, s =>
    match comparison f s with
    | .error e => .error e
    | .ok (expr, s) => equalityLoop f expr s

def equalityLoop : Nat → Expr → PState → Except ParseError (Expr × PState)
  | 0, _, s => .error (fuelError s)
  | f + 1, expr, s =>
    let (m, s) := matchP s [.bangEqual, .equalEqual]
    if m then
      let op := prevT s
      match comparison f s with
      | .error e => .error e
      | .ok (right, s) => equalityLoop f (Expr.binary expr op right) s
    else .ok (expr, s)

/-- `Parser::comparison`. -/
def comparison : Nat → PState → Except ParseError (Expr × PState)
  | 0, s => .error (fuelError s)
  | f + 1, s =>
    match term f s with
    | .error e => .error e
    | .ok (expr, s) => comparisonLoop f expr s

def comparisonLoop : Nat → Expr → PState → Except ParseError (Expr × PState)
  | 0, _, s => .error (fuelError s)
  | f + 1, expr, s =>
    let (m, s) := matchP s [.greater, .greaterEqual, .less, .lessEqual]
    if m then
      let op := prevT s
      match term f s with
      | .error e => .error e
      | .ok (right, s) => comparisonLoop f (Expr.binary expr op right) s
    else .ok (expr, s)

/-- `Parser::term`.  Faithful to the source: the right operand is parsed
with `unary`, not `factor`. -/
def term : Nat → PState → Except ParseError (Expr × PState)
  | 0, s => .error (fuelError s)
  | f + 1, s =>
    match factor f s with
    | .error e => .error e
    | .ok (expr, s) => termLoop f expr s

def termLoop : Nat → Expr → PState → Except ParseError (Expr × PState)
  | 0, _, s => .error (fuelError s)
  | f + 1, expr, s =>
    let (m, s) := matchP s [.minus, .plus]
    if m then
      let op := prevT s
      match unary f s with
      | .error e => .error e
      | .ok (right, s) => termLoop f (Expr.binary expr op right) s
    else .ok (expr, s)

/-- `Parser::factor`. -/
def factor : Nat → PState → Except ParseError (Expr × PState)
  | 0, s => .error (fuelError s)
  | f + 1, s =>
    match unary f s with
    | .error e => .error e
    | .ok (expr, s) => factorLoop f expr s

def factorLoop : Nat → Expr → PState → Except ParseError (Expr × PState)
  | 0, _, s => .error (fuelError s)
  | f + 1, expr, s =>
    let (m, s) := matchP s [.slash, .star]
    if m then
      let op := prevT s
      match unary f s with
      | .error e => .error e
      | .ok (right, s) => factorLoop f (Expr.binary expr op right) s
    else .ok (expr, s)

/-- `Parser::unary`. -/
def unary : Nat → PState → Except ParseError (Expr × PState)
  | 0, s => .error (fuelError s)
  | f + 1, s =>
    let (m, s') := matchP s [.bang, .minus]
    if m then
      let op := prevT s'
      match unary f s' with
      | .error e => .error e
      | .ok (right, s') => .ok (Expr.unary op right, s')
    else primary f s'

/-- `Parser::primary`.  The `Number`/`String` branch unwraps the token's
`literal`; scanner-produced number and string tokens always carry one, so the
`none` case (a panic in the source) is modelled as a propagated error. -/
def primary : Nat → PState → Except ParseError (Expr × PState)
  | 0, s => .error (fuelError s)
  | f + 1, s =>
    let (mf, s) := matchP s [.false_]
    if mf then .ok (Expr.literal (.bool false), s)
    else
      let (mt, s) := matchP s [.true_]
      if mt then .ok (Expr.literal (.bool true), s)
      else
        let (mn, s) := matchP s [.nil_]
        if mn then .ok (Expr.literal .nil, s)
        else
          let (ml, s) := matchP s [.number, .string_]
          if ml then
            match (prevT s).literal with
            | some l => .ok (Expr.literal l, s)
            | none => .error ⟨peekT s, ""⟩
          else
            let (mi, s) := matchP s [.identifier]
            if mi then .ok (Expr.var (prevT s), s)
            else
              let (mp, s) := matchP s [.leftParen]
              if mp then
                match expression f s with
                | .error e => .error e
                | .ok (expr, s) =>
                  match consumeP s .rightParen "Expect ')' after expression." with
                  | .ok (_, s) => .ok (Expr.grouping expr, s)
                  | .error e => .error e
              else .error ⟨peekT s, "Expect expression."⟩

end

/-- The scanning loop of `Parser::synchronize` after the initial `advance`. -/
def syncLoop : Nat → PState → PState
  | 0, s => s
  | f + 1, s =>
    if (peekT s).tokenType = TokenType.eof then s
    else if (prevT s).tokenType = TokenType.semiColon then s
    else
      match (peekT s).tokenType with
      | .class_ | .fun_ | .var | .for_ | .if_ | .while_ | .print | .return_ => s
      | _ => syncLoop f (advanceP s).2

/-- `Parser::synchronize`: advance once, then skip tokens until just past a
`;` or in front of a statement-starting keyword. -/
def synchronize (s : PState) : PState :=
  syncLoop (s.tokens.length + 1) (advanceP s).2

mutual

/-- `Parser::declaration`: `var` leads into a variable declaration, anything
else into a statement; on a parse error, synchronize, report the error and
produce no statement. -/
def declaration : Nat → PState → Option Stmt × PState
  | 0, s => (none, s)
  | f + 1, s =>
    let (m, s) := matchP s [.var]
    if m then
      match varDeclaration f s with
      | .ok (st, s) => (some st, s)
      | .error e =>
        let s := synchronize s
        (none, { s with errors := s.errors ++ [e] })
    else
      match statement f s with
      | .ok (st, s) => (some st, s)
      | .error e =>
        let s := synchronize s
        (none, { s with errors := s.errors ++ [e] })

/-- `Parser::var_declaration`. -/
def varDeclaration : Nat → PState → Except ParseError (Stmt × PState)
  | 0, s => .error (fuelError s)
  | f + 1, s =>
    match consumeP s .identifier "Expect variable name" with
    | .error e => .error e
    | .ok (name, s) =>
      let (m, s) := matchP s [.equal]
      if m then
        match expression f s with
        | .error e => .error e
        | .ok (init, s) =>
          match consumeP s .semiColon "Expect ';' after variable declaration" with
          | .error e => .error e
          | .ok (_, s) => .ok (Stmt.var name (some init), s)
      else
        match consumeP s .semiColon "Expect ';' after variable declaration" with
        | .error e => .error e
        | .ok (_, s) => .ok (Stmt.var name none, s)

/-- `Parser::statement`. -/
def statement : Nat → PState → Except ParseError (Stmt × PState)
  | 0, s => .error (fuelError s)
  | f + 1, s =>
    let (mp, s) := matchP s [.print]
    if mp then printStatement f s
    else
      let (mb, s) := matchP s [.leftBrace]
      if mb then blockStatement f s []
      else
        let (mi, s) := matchP s [.if_]
        if mi then ifStatement f s
        else expressionStatement f s

/-- `Parser::print_statement`. -/
def printStatement : Nat → PState → Except ParseError (Stmt × PState)
  | 0, s => .error (fuelError s)
  | f + 1, s =>
    match expression f s with
    | .error e => .error e
    | .ok (e, s) =>
      match consumeP s .semiColon "Expect ';' after value." with
      | .ok (_, s) => .ok (Stmt.print e, s)
      | .error e => .error e

/-- The declaration loop of `Parser::block_statement`, then the closing
brace. -/
def blockStatement : Nat → PState → List Stmt → Except ParseError (Stmt × PState)
  | 0, s, _ => .error (fuelError s)
  | f + 1, s, acc =>
    if checkP s .rightBrace = false ∧ (peekT s).tokenType ≠ TokenType.eof then
      match declaration f s with
      | (some st, s) => blockStatement f s (acc ++ [st])
      | (none, s) => blockStatement f s acc
    else
      match consumeP s .rightBrace "Expect '\x7d' after block" with
      | .error e => .error e
      | .ok (_, s) => .ok (Stmt.block acc, s)

/-- `Parser::if_statement`.  Faithful to the source: it consumes a `{` after
`if` and a `}` after the condition (with messages naming parentheses). -/
def ifStatement : Nat → PState → Except ParseError (Stmt × PState)
  | 0, s => .error (fuelError s)
  | f + 1, s =>
    match consumeP s .leftBrace "Expect '(' after if" with
    | .error e => .error e
    | .ok (_, s) =>
      match expression f s with
      | .error e => .error e
      | .ok (cond, s) =>
        match consumeP s .rightBrace "Expect ')' after if condition" with
        | .error e => .error e
        | .ok (_, s) =>
          match statement f s with
          | .error e => .error e
          | .ok (thenB, s) =>
            let (m, s) := matchP s [.else_]
            if m then
              match statement f s with
              | .error e => .error e
              | .ok (elseB, s) => .ok (Stmt.if_ cond thenB (some elseB), s)
            else .ok (Stmt.if_ cond thenB none, s)

/-- `Parser::expression_statement`. -/
def expressionStatement : Nat → PState → Except ParseError (Stmt × PState)
  | 0, s => .error (fuelError s)
  | f + 1, s =>
    match expression f s with
    | .error e => .error e
    | .ok (e, s) =>
      match consumeP s .semiColon "Expect ';' after expression." with
      | .ok (_, s) => .ok (Stmt.expr e, s)
      | .error e => .error e

end

/-- The `while !at_end()` loop of `Parser::parse`. -/
def parseLoop : Nat → PState → List Stmt → List Stmt × PState
  | 0, s, acc => (acc, s)
  | f + 1, s, acc =>
    if (peekT s).tokenType = TokenType.eof then (acc, s)
    else
      match declaration (s.tokens.length * 4 + 16) s with
      | (some st, s) => parseLoop f s (acc ++ [st])
      | (none, s) => parseLoop f s acc

/-- `Parser::parse`: the produced statements and the reported parse
errors. -/
def parseTokens (toks : List Token) : List Stmt × List ParseError :=
  let (stmts, s) := parseLoop (toks.length + 1) ⟨toks, 0, []⟩ []
  (stmts, s.errors)

/-! ## The driver pipeline (`Lox::run` in `src/main.rs`) -/

/-- `Lox::run`: scan, parse, interpret.  (The driver's `had_error` field is
never set by the global reporting, so the interpreter runs regardless of
scan or parse errors — faithful to the source.) -/
def runSource (src : List Char) : InterpOutcome :=
  let (toks, _) := scanTokens src
  let (stmts, _) := parseTokens toks
  interpretProgram stmts initState

/-- The `Print` output of a run, whether or not it panicked. -/
def outputOf : InterpOutcome → List Literal
  | .ok s => s.output
  | .panic s => s.output

/-- The runtime errors reported during a run. -/
def rerrsOf : InterpOutcome → List RuntimeError
  | .ok s => s.rerrs
  | .panic s => s.rerrs

/-! ## Concrete tokens and programs used by the claims -/

def xTok : Token := ⟨.identifier, "x", some .nil, 1⟩
def yTok : Token := ⟨.identifier, "y", some .nil, 1⟩
def aTok : Token := ⟨.identifier, "a", some .nil, 1⟩
def bTok : Token := ⟨.identifier, "b", some .nil, 1⟩
def cTok : Token := ⟨.identifier, "c", some .nil, 1⟩
def eqTok : Token := ⟨.equal, "=", some .nil, 1⟩
def semiTok : Token := ⟨.semiColon, ";", some .nil, 1⟩
def eofTok : Token := ⟨.eof, "", none, 1⟩
def bangTok : Token := ⟨.bang, "!", some .nil, 1⟩
def orTok : Token := ⟨.or_, "or", some .nil, 1⟩
def plusTok : Token := ⟨.plus, "+", some .nil, 1⟩

/-- The statement sequence `var x = 1; { var x = 2; print x; } print x;`. -/
def prog1 : List Stmt :=
  [ .var xTok (some (.literal (.num 1))),
    .block [ .var xTok (some (.literal (.num 2))), .print (.var xTok) ],
    .print (.var xTok) ]

/-- `if (y) print 1; else print 2; print 3;` with `y` undeclared. -/
def prog5 : List Stmt :=
  [ .if_ (.var yTok) (.print (.literal (.num 1)))
      (some (.print (.literal (.num 2)))),
    .print (.literal (.num 3)) ]

/-- `if (false) print 1;` — falsy condition, no else branch. -/
def prog7 : Stmt := .if_ (.literal (.bool false)) (.print (.literal (.num 1))) none

def src6a : List Char := "print \"a\" + \"b\";".toList
def src6b : List Char := "print 1 + \"a\";".toList

/-! ## Claims -/

/-- C1: interpreting `var x = 1; { var x = 2; print x; } print x;` prints
`2` then `2`, not `2` then `1`: the `Stmt::Block` arm of
`Interpreter::interpret_stmt` runs the block's statements against the same
environment without pushing (or discarding) a child scope, so the inner
`var x = 2` overwrites the outer binding, which is also `2` after the
block. -/
theorem c1_block_no_child_scope :
    interpretProgram prog1 initState =
      .ok ⟨[[("x", Literal.num 2)]], [Literal.num 2, Literal.num 2], []⟩ ∧
    outputOf (interpretProgram prog1 initState) ≠
      [Literal.num 2, Literal.num 1] :=
  ⟨rfl, by decide⟩

/-- C2: on the token sequence of `a = b;` — whose already-parsed left side is
a bare variable reference — `Parser::assignment` produces no Assignment node
but the ParseError "Invalid assignment target." (the source matches on the
parsed right-hand side instead of the left side), and `a = b = c` fails the
same way instead of parsing right-associatively. -/
theorem c2_assignment_invalid_target :
    parseTokens [aTok, eqTok, bTok, semiTok, eofTok] =
      ([], [⟨eqTok, "Invalid assignment target."⟩]) ∧
    parseTokens [aTok, eqTok, bTok, eqTok, cTok, semiTok, eofTok] =
      ([], [⟨eqTok, "Invalid assignment target."⟩]) :=
  ⟨rfl, rfl⟩

/-- C3: for every operand value `v`, evaluating unary `!` on `v` returns
`Bool(is_truthy(v))` — the truthiness itself, not its negation: the `Bang`
arm of `Interpreter::evaluate_unary` applies no negation, so `!true`
evaluates to `Bool(true)`. -/
theorem c3_bang_returns_truthiness (v : Literal) (env : EnvC) :
    evalExpr env (.unary bangTok (.literal v)) = .ok (.bool (isTruthy v)) env := by
  rfl

/-! ### Environment lemmas (for C4) -/

lemma scopeGet_insert_self (sc : Scope) (k : String) (v : Literal) :
    scopeGet (scopeInsert sc k v) k = some v := by
  induction sc with
  | nil => simp [scopeInsert, scopeGet]
  | cons hd tl ih =>
    obtain ⟨a, w⟩ := hd
    by_cases h : a = k
    · simp [scopeInsert, h, scopeGet]
    · simp [scopeInsert, h, scopeGet, ih]

lemma scopeKeys_insert (sc : Scope) (k : String) (v : Literal)
    (h : containsKey sc k = true) :
    (scopeInsert sc k v).map Prod.fst = sc.map Prod.fst := by
  induction sc with
  | nil => simp [containsKey, scopeGet] at h
  | cons hd tl ih =>
    obtain ⟨a, w⟩ := hd
    by_cases ha : a = k
    · subst ha; simp [scopeInsert]
    · have h' : containsKey tl k = true := by
        simpa [containsKey, scopeGet, ha] using h
      simp [scopeInsert, ha, ih h']

lemma scopeGet_eq_none_of_not_contains (sc : Scope) (k : String)
    (h : containsKey sc k = false) : scopeGet sc k = none := by
  cases hsg : scopeGet sc k with
  | none => rfl
  | some w => simp [containsKey, hsg] at h

lemma envContains_of_getD (c : EnvC) (key : String) (i : Nat)
    (hi : i < c.length) (h : containsKey (c.getD i []) key = true) :
    envContains c key = true := by
  induction c generalizing i with
  | nil => simp at hi
  | cons scope rest ih =>
    cases i with
    | zero =>
      simp only [List.getD_cons_zero] at h
      simp [envContains, List.any_cons, h]
    | succ i' =>
      have hrest := ih i' (by simpa using hi) (by simpa [List.getD_cons_succ] using h)
      have h2 : envContains (scope :: rest) key =
          (containsKey scope key || envContains rest key) := by
        simp [envContains, List.any_cons]
      rw [h2, hrest, Bool.or_true]

lemma env_unbound_spec (c : EnvC) (t : Token) (v : Literal)
    (h : envContains c t.lexeme = false) :
    envGet c t = .error ⟨t, "Undefined variable " ++ t.lexeme⟩ ∧
    envAssign c t v = .error ⟨t, "Undefined variable " ++ t.lexeme⟩ := by
  induction c with
  | nil => exact ⟨rfl, rfl⟩
  | cons scope rest ih =>
    have h' : containsKey scope t.lexeme = false ∧ envContains rest t.lexeme = false := by
      simpa [envContains, List.any_cons, Bool.or_eq_false_iff] using h
    have hg : scopeGet scope t.lexeme = none :=
      scopeGet_eq_none_of_not_contains scope t.lexeme h'.1
    obtain ⟨ih1, ih2⟩ := ih h'.2
    refine ⟨?_, ?_⟩
    · simp [envGet, hg, ih1]
    · simp [envAssign, h'.1, ih2]

lemma env_bound_spec (c : EnvC) (t : Token) (v : Literal)
    (h : envContains c t.lexeme = true) :
    (∃ l, envGet c t = .ok l) ∧
    ∃ i, i < c.length ∧
      (∀ j, j < i → containsKey (c.getD j []) t.lexeme = false) ∧
      containsKey (c.getD i []) t.lexeme = true ∧
      envAssign c t v = .ok (c.set i (scopeInsert (c.getD i []) t.lexeme v)) ∧
      (c.set i (scopeInsert (c.getD i []) t.lexeme v)).map (List.map Prod.fst) =
        c.map (List.map Prod.fst) := by
  induction c with
  | nil => simp [envContains] at h
  | cons scope rest ih =>
    by_cases hc : containsKey scope t.lexeme = true
    · obtain ⟨w, hw⟩ : ∃ w, scopeGet scope t.lexeme = some w := by
        cases hsg : scopeGet scope t.lexeme with
        | none => simp [containsKey, hsg] at hc
        | some w => exact ⟨w, rfl⟩
      refine ⟨⟨w, by simp [envGet, hw]⟩, 0, by simp, ?_, ?_, ?_, ?_⟩
      · intro j hj; exact absurd hj (Nat.not_lt_zero j)
      · simpa [List.getD_cons_zero] using hc
      · simp [envAssign, hc, List.getD_cons_zero, List.set_cons_zero]
      · simp [List.getD_cons_zero, List.set_cons_zero,
              scopeKeys_insert scope t.lexeme v hc]
    · have hc' : containsKey scope t.lexeme = false := by
        simpa using hc
      have hr : envContains rest t.lexeme = true := by
        simpa [envContains, List.any_cons, hc'] using h
      have hg : scopeGet scope t.lexeme = none :=
        scopeGet_eq_none_of_not_contains scope t.lexeme hc'
      obtain ⟨⟨l, hl⟩, i, hi, hjs, hki, has, hkeys⟩ := ih hr
      refine ⟨⟨l, by simp [envGet, hg, hl]⟩, i + 1,
        by simpa using Nat.succ_lt_succ hi, ?_, ?_, ?_, ?_⟩
      · intro j hj
        cases j with
        | zero => simpa [List.getD_cons_zero] using hc'
        | succ j' =>
          simp only [List.getD_cons_succ]
          exact hjs j' (by omega)
      · simpa [List.getD_cons_succ] using hki
      · simp [envAssign, hc', List.getD_cons_succ, List.set_cons_succ, has]
      · rw [List.getD_cons_succ, List.set_cons_succ, List.map_cons, List.map_cons, hkeys]

/-- C4: for every environment chain and name, `Environment::get` errors with
the undefined-variable RuntimeError carrying the lookup token exactly when
the name is bound in no scope of the chain (and returns a value exactly when
it is bound somewhere); `Environment::assign` errors the same way exactly
when the name is nowhere in the chain, and otherwise rewrites exactly the
innermost scope already containing the name (every scope keeps its key set,
so no new binding is ever created). -/
theorem c4_env_get_assign (c : EnvC) (t : Token) (v : Literal) :
    (envGet c t = .error ⟨t, "Undefined variable " ++ t.lexeme⟩ ↔
      envContains c t.lexeme = false) ∧
    ((∃ l, envGet c t = .ok l) ↔ envContains c t.lexeme = true) ∧
    (envAssign c t v = .error ⟨t, "Undefined variable " ++ t.lexeme⟩ ↔
      envContains c t.lexeme = false) ∧
    ((∃ i, i < c.length ∧
        (∀ j, j < i → containsKey (c.getD j []) t.lexeme = false) ∧
        containsKey (c.getD i []) t.lexeme = true ∧
        envAssign c t v = .ok (c.set i (scopeInsert (c.getD i []) t.lexeme v)) ∧
        (c.set i (scopeInsert (c.getD i []) t.lexeme v)).map (List.map Prod.fst) =
          c.map (List.map Prod.fst)) ↔
      envContains c t.lexeme = true) := by
  cases hb : envContains c t.lexeme with
  | false =>
    obtain ⟨hg, ha⟩ := env_unbound_spec c t v hb
    refine ⟨iff_of_true hg rfl, ?_, iff_of_true ha rfl, ?_⟩
    · constructor
      · rintro ⟨l, hl⟩
        rw [hg] at hl
        exact absurd hl (by simp)
      · intro hh; simp [hb] at hh
    · constructor
      · rintro ⟨i, hi, _, hki, _, _⟩
        rw [← hb]
        exact envContains_of_getD c t.lexeme i hi hki
      · intro hh; simp [hb] at hh
  | true =>
    obtain ⟨⟨l, hl⟩, i, hi, hjs, hki, has, hkeys⟩ := env_bound_spec c t v hb
    refine ⟨?_, iff_of_true ⟨l, hl⟩ rfl, ?_, iff_of_true ⟨i, hi, hjs, hki, has, hkeys⟩ rfl⟩
    · constructor
      · intro hh; rw [hh] at hl; exact absurd hl (by simp)
      · intro hh; simp [hb] at hh
    · constructor
      · intro hh; rw [hh] at has; exact absurd has (by simp)
      · intro hh; simp [hb] at hh

/-- C4 witness: in the one-scope chain binding only `x`, looking up or
assigning `y` yields the undefined-variable error. -/
theorem c4_env_get_assign_witness :
    envContains [[("x", Literal.nil)]] yTok.lexeme = false ∧
    envGet [[("x", Literal.nil)]] yTok =
      .error ⟨yTok, "Undefined variable " ++ yTok.lexeme⟩ ∧
    envAssign [[("x", Literal.nil)]] yTok (Literal.num 5) =
      .error ⟨yTok, "Undefined variable " ++ yTok.lexeme⟩ :=
  ⟨rfl,
   (c4_env_get_assign [[("x", Literal.nil)]] yTok (Literal.num 5)).1.mpr rfl,
   (c4_env_get_assign [[("x", Literal.nil)]] yTok (Literal.num 5)).2.2.1.mpr rfl⟩

/-- C5: a RuntimeError raised in an If condition does not abort only the
current statement: the `Stmt::If` arm calls `.unwrap()` on the condition's
`Result`, so interpreting `if (y) print 1; else print 2; print 3;` with `y`
undefined panics — the error is never reported (`rerrs = []`) and the
subsequent `print 3;` never executes (`output = []`). -/
theorem c5_if_condition_error_panics :
    interpretProgram prog5 initState = .panic ⟨[[]], [], []⟩ :=
  rfl

/-- C6 counterexample: the full pipeline on `print "a" + "b";` does not
print the string `ab` (the scanned string literals retain their surrounding
quotes, so the concatenation is the 6-character string `"a""b"`). -/
theorem c6_counterexample :
    outputOf (runSource src6a) ≠ [Literal.str "ab"] := by
  decide

/-- C6 (amended): the full pipeline on `print "a" + "b";` prints the
6-character string `"a""b"` — String+String concatenation of the two scanned
literals, each of which includes its surrounding quote characters — and on
`print 1 + "a";` it reports a RuntimeError with message "Operands must be
numbers" (carrying the `+` token) and prints nothing. -/
theorem c6_amended_pipeline :
    outputOf (runSource src6a) = [Literal.str "\"a\"\"b\""] ∧
    outputOf (runSource src6b) = [] ∧
    rerrsOf (runSource src6b) = [⟨plusTok, "Operands must be numbers"⟩] :=
  ⟨rfl, rfl, rfl⟩

/-- C7: interpreting an If statement whose condition is falsy and which has
no else branch is not a no-op: the `Stmt::If` arm calls
`else_branch.unwrap()` on `None`, so `if (false) print 1;` panics. -/
theorem c7_if_false_no_else_panics :
    interpretStmt prog7 initState = .panic initState :=
  rfl

/-- C8: `a or b;` is not parsed into a Logical node — `Parser::or` folds on
`And` tokens instead of `Or`, so the `or` token is never consumed and the
statement fails with "Expect ';' after expression." — and evaluating a
Logical node has no path in `Interpreter::evaluate` at all (the source's
match has no `Logical` arm; modelled as a panic), rather than evaluating
both operands like the other binary operators. -/
theorem c8_or_parse_and_logical_eval :
    parseTokens [aTok, orTok, bTok, semiTok, eofTok] =
      ([], [⟨orTok, "Expect ';' after expression."⟩]) ∧
    evalExpr [[]] (.logical (.literal (.bool true)) orTok (.literal (.bool false))) =
      .panic [[]] :=
  ⟨rfl, rfl⟩

/-! ### Scanner lemmas (for C9) -/

lemma stringLoop_no_quote (src : List Char) :
    ∀ fuel current line, current ≤ src.length → src.length - current ≤ fuel →
      (∀ c ∈ src.drop current, c ≠ '"') →
      stringLoop src current line fuel =
        (src.length, line + (src.drop current).count '\n') := by
  intro fuel
  induction fuel with
  | zero =>
    intro current line hle hf _
    have hcur : current = src.length := by omega
    subst hcur
    simp [stringLoop, List.drop_length]
  | succ f ih =>
    intro current line hle hf hq
    by_cases h : current < src.length
    · have hdrop : src.drop current = src[current] :: src.drop (current + 1) :=
        List.drop_eq_getElem_cons h
      have hgetD : src.getD current ' ' = src[current] := by
        simp [List.getD_eq_getElem?_getD, List.getElem?_eq_getElem h]
      have hnq : src.getD current ' ' ≠ '"' := by
        rw [hgetD]
        exact hq _ (by rw [hdrop]; exact List.mem_cons_self _ _)
      have hq' : ∀ c ∈ src.drop (current + 1), c ≠ '"' := fun c hc =>
        hq c (by rw [hdrop]; exact List.mem_cons_of_mem _ hc)
      simp only [stringLoop]
      rw [if_pos ⟨h, hnq⟩,
        ih (current + 1) (if src.getD current ' ' = '\n' then line + 1 else line)
          (by omega) (by omega) hq',
        hdrop, List.count_cons, hgetD]
      by_cases hnl : src[current] = '\n'
      all_goals simp [hnl, Prod.mk.injEq]
      all_goals omega
    · have hcur : current = src.length := by omega
      subst hcur
      simp only [stringLoop]
      rw [if_neg (by omega)]
      simp [List.drop_length]

lemma stringFn_unterminated (s : ScanState) (h0 : s.current ≤ s.source.length)
    (h3 : ∀ c ∈ s.source.drop s.current, c ≠ '"') :
    stringFn s =
      { s with current := s.source.length,
               line := s.line + (s.source.drop s.current).count '\n',
               errors := s.errors ++
                 [(s.line + (s.source.drop s.current).count '\n',
                   "Unterminated string.")] } := by
  unfold stringFn
  rw [stringLoop_no_quote s.source s.source.length s.current s.line h0 (by omega) h3]
  simp

lemma scanToken_unterminated (s : ScanState) (h1 : s.current < s.source.length)
    (h2 : s.source.getD s.current ' ' = '"')
    (h3 : ∀ c ∈ s.source.drop (s.current + 1), c ≠ '"') :
    scanToken s =
      { s with current := s.source.length,
               line := s.line + (s.source.drop (s.current + 1)).count '\n',
               errors := s.errors ++
                 [(s.line + (s.source.drop (s.current + 1)).count '\n',
                   "Unterminated string.")] } := by
  unfold scanToken
  rw [h2]
  have hd : scanTokenChar '"' { s with current := s.current + 1 } =
      stringFn { s with current := s.current + 1 } := rfl
  rw [hd, stringFn_unterminated { s with current := s.current + 1 }
    (by simpa using h1) (by simpa using h3)]

lemma scanLoop_done (s : ScanState) (fuel : Nat)
    (h : s.source.length ≤ s.current) : scanLoop s fuel = s := by
  cases fuel with
  | zero => rfl
  | succ f =>
    simp only [scanLoop]
    rw [if_neg (by omega)]

/-- C9: whenever the scanning loop reaches a `"` that opens a string literal
never closed before the end of the input, the scan reports exactly one
"Unterminated string." lexical error at the current line (the line counter
after the newlines of the unterminated literal), emits no token for the
literal (the token list is unchanged), and the loop still terminates
normally with the tokens produced so far. -/
theorem c9_unterminated_string (s : ScanState) (fuel : Nat)
    (h1 : s.current < s.source.length)
    (h2 : s.source.getD s.current ' ' = '"')
    (h3 : ∀ c ∈ s.source.drop (s.current + 1), c ≠ '"') :
    scanLoop s (fuel + 1) =
      { s with start := s.current,
               current := s.source.length,
               line := s.line + (s.source.drop (s.current + 1)).count '\n',
               errors := s.errors ++
                 [(s.line + (s.source.drop (s.current + 1)).count '\n',
                   "Unterminated string.")] } := by
  have hstep := scanToken_unterminated { s with start := s.current }
    (by simpa using h1) (by simpa using h2) (by simpa using h3)
  simp only [scanLoop]
  rw [if_pos h1, hstep, scanLoop_done _ fuel (by simp)]

/-- C9 witness: scanning the two-character source `"a` from the start
reports one "Unterminated string." error at line 1, emits no token, and
consumes the whole input. -/
theorem c9_unterminated_string_witness :
    ((0 : Nat) < (['"', 'a'] : List Char).length) ∧
    (['"', 'a'] : List Char).getD 0 ' ' = '"' ∧
    (∀ c ∈ (['"', 'a'] : List Char).drop 1, c ≠ '"') ∧
    scanLoop ⟨['"', 'a'], [], [], 0, 0, 1⟩ 1 =
      ⟨['"', 'a'], [], [(1, "Unterminated string.")], 0, 2, 1⟩ := by
  refine ⟨by decide, by decide, by decide, ?_⟩
  exact c9_unterminated_string ⟨['"', 'a'], [], [], 0, 0, 1⟩ 0
    (by decide) (by decide) (by decide)

/-- C10: for every `var` declaration whose initializer evaluation raises a
RuntimeError, the `Stmt::Var` arm reports the error and still defines the
declared name with value `Nil` in the current environment — the declaration
is not atomic on error. -/
theorem c10_var_defines_nil_on_error (name : Token) (e : Expr)
    (st : InterpState) (r : RuntimeError) (env' : EnvC)
    (h : evalExpr st.env e = .err r env') :
    interpretStmt (.var name (some e)) st =
      .ok none { st with env := envDefine env' name.lexeme .nil,
                         rerrs := st.rerrs ++ [r] } := by
  simp only [interpretStmt, h]

/-- C10 witness: `var x = y;` with `y` undefined reports the undefined-
variable error and still binds `x` to `Nil`. -/
theorem c10_var_defines_nil_on_error_witness :
    evalExpr initState.env (.var yTok) =
      .err ⟨yTok, "Undefined variable y"⟩ [[]] ∧
    interpretStmt (.var xTok (some (.var yTok))) initState =
      .ok none { initState with
                   env := envDefine [[]] xTok.lexeme .nil,
                   rerrs := initState.rerrs ++ [⟨yTok, "Undefined variable y"⟩] } :=
  ⟨rfl, c10_var_defines_nil_on_error xTok (.var yTok) initState
    ⟨yTok, "Undefined variable y"⟩ [[]] rfl⟩

end Rlox
